import Mathlib

/-!
Verification of the XOR extent writer of the update engine
(`payload_consumer/xor_extent_writer.cc`).

The engine is embedded shallowly: the external collaborators (block size
and partition size configuration, the source-partition reader `PReadAll`,
the COW sink `AddXorBlocks`/`AddRawBlocks`, and the merge-operation lookup
`GetIntersectingExtents`/`GetNonIntersectingExtents`/`Get`) are capability
functions collected in an environment record, and every function of the
writer additionally returns the ordered trace of sink calls it performed,
so that "no sink call is made" and "the forwarded data is ..." become
statements about that trace.

Machine integers (`uint64_t`, `size_t`) are embedded as `Nat`.  The C++
subtractions that could wrap (`a - b` on `uint64_t`) appear here as
truncated `Nat` subtraction; the theorems that depend on a subtraction
carry the no-underflow hypothesis (established in the source by the
containment checks of `WriteExtent` and by the extent invariant
`num_blocks > 0`), under which the two semantics agree.
-/

/-- A contiguous run of fixed-size blocks (`update_metadata.pb.h` `Extent`):
a starting block index and a block count. -/
structure Extent where
  start_block : Nat
  num_blocks : Nat
deriving DecidableEq, Repr

/-- A COW merge operation (`update_metadata.pb.h` `CowMergeOperation`): the
optional protobuf fields `src_extent` and `dst_extent` and the sub-block
byte shift `src_offset`.  `Option` models protobuf field presence
(`has_src_extent` / `has_dst_extent`). -/
structure CowMergeOperation where
  src_extent : Option Extent
  dst_extent : Option Extent
  src_offset : Nat
deriving DecidableEq, Repr

/-- Protobuf accessor `src_extent()`: the field, or the default (zero)
extent when unset. -/
def CowMergeOperation.srcExtentV (m : CowMergeOperation) : Extent :=
  m.src_extent.getD ⟨0, 0⟩

/-- Protobuf accessor `dst_extent()`: the field, or the default (zero)
extent when unset. -/
def CowMergeOperation.dstExtentV (m : CowMergeOperation) : Extent :=
  m.dst_extent.getD ⟨0, 0⟩

/-- One call forwarded to the COW sink (`ICowWriter`): either
`AddXorBlocks(start_block, data, size, src_block, src_sub_block_offset)`
or `AddRawBlocks(start_block, data, size)`. -/
inductive SinkCall where
  | addXorBlocks (start_block : Nat) (data : List Nat) (size : Nat)
      (src_block : Nat) (src_sub_block_offset : Nat)
  | addRawBlocks (start_block : Nat) (data : List Nat) (size : Nat)
deriving DecidableEq, Repr

/-- The `src_sub_block_offset` argument of a sink call, when it is an
`AddXorBlocks` call. -/
def subBlockOffsetOf : SinkCall → Option Nat
  | SinkCall.addXorBlocks _ _ _ _ off => some off
  | SinkCall.addRawBlocks _ _ _ => none

/-- The environment of one `XORExtentWriter`: the configuration captured at
construction (`BlockSize()`, `partition_size_`) and the external
collaborators.  `pread off len` models `utils::PReadAll(source_fd_, buf,
len, off, &bytes_read)`: `none` is an errno failure, `some data` a read
that returned `data.length` bytes (a short read when `data.length < len`).
`sinkXorOk` / `sinkRawOk` give the boolean results of the sink calls, and
`getIntersecting` / `getNonIntersecting` / `xorMapGet` model the three
query modes of `xor_map_`. -/
structure Env where
  blockSize : Nat
  partitionSize : Nat
  pread : Nat → Nat → Option (List Nat)
  sinkXorOk : Nat → List Nat → Nat → Nat → Nat → Bool
  sinkRawOk : Nat → List Nat → Nat → Bool
  getIntersecting : Extent → List Extent
  getNonIntersecting : Extent → List Extent
  xorMapGet : Extent → Option CowMergeOperation

/-- Modelled from the spec: `ExtentContains` (from
`payload_generator/extent_utils.h`, not part of the sources here) decides
whether `b` lies fully within `a` — the spec's "`x` is fully contained in
`extent`". -/
def ExtentContains (a b : Extent) : Bool :=
  decide (a.start_block ≤ b.start_block) &&
    decide (b.start_block + b.num_blocks ≤ a.start_block + a.num_blocks)

/-- `XORExtentWriter::WriteXorCowOp(bytes, size, xor_ext, src_offset)`:
read `BlockSize() * xor_ext.num_blocks()` source bytes at `src_offset`
(failing on a read error or a short read), XOR them byte-wise against
`bytes`, and forward the result to the sink via `AddXorBlocks`.  The
`size` parameter is unused in the source body as well. -/
def WriteXorCowOp (env : Env) (bytes : List Nat) (_sz : Nat)
    (xorExt : Extent) (srcOffset : Nat) : Bool × List SinkCall :=
  let readLen := env.blockSize * xorExt.num_blocks
  let srcBlock := srcOffset / env.blockSize
  match env.pread srcOffset readLen with
  | none => (false, [])
  | some data =>
    if data.length ≠ readLen then (false, [])
    else
      let xored := List.zipWith Nat.xor data bytes
      (env.sinkXorOk xorExt.start_block xored readLen srcBlock
          (srcOffset % env.blockSize),
       [SinkCall.addXorBlocks xorExt.start_block xored readLen srcBlock
          (srcOffset % env.blockSize)])

/-- The source block of a destination sub-extent under a merge operation:
`merge_op->src_extent().start_block() + xor_ext.start_block() -
merge_op->dst_extent().start_block()` (first line of `WriteXorExtent`). -/
def srcBlockOf (m : CowMergeOperation) (x : Extent) : Nat :=
  m.srcExtentV.start_block + x.start_block - m.dstExtentV.start_block

/-- The end offset of the implied source read:
`(src_block + xor_ext.num_blocks()) * BlockSize() + merge_op->src_offset()`. -/
def readEndOffset (env : Env) (m : CowMergeOperation) (x : Extent) : Nat :=
  (srcBlockOf m x + x.num_blocks) * env.blockSize + m.src_offset

/-- The out-of-bound branch of `WriteXorExtent` (lines 85-101): split the
sub-extent into the non-out-of-bound part `ExtentForRange(x.start_block,
x.num_blocks - 1)` (forwarded only when it has at least one block, at
source offset `src_block * BlockSize() + src_offset`) and the last block
`ExtentForRange(x.start_block + x.num_blocks - 1, 1)` (forwarded at the
block-aligned source offset `(src_block + x.num_blocks - 1) *
BlockSize()`); the first failure aborts. -/
def writeXorExtentSplit (env : Env) (bytes : List Nat) (x : Extent)
    (m : CowMergeOperation) : Bool × List SinkCall :=
  let srcBlock := srcBlockOf m x
  let nonOob : Extent := ⟨x.start_block, x.num_blocks - 1⟩
  let step1 :=
    if 0 < nonOob.num_blocks then
      WriteXorCowOp env bytes (env.blockSize * nonOob.num_blocks) nonOob
        (srcBlock * env.blockSize + m.src_offset)
    else (true, [])
  if step1.1 then
    let lastBlock : Extent := ⟨x.start_block + x.num_blocks - 1, 1⟩
    let step2 := WriteXorCowOp env (bytes.drop ((x.num_blocks - 1) * env.blockSize))
        env.blockSize lastBlock ((srcBlock + x.num_blocks - 1) * env.blockSize)
    (step2.1, step1.2 ++ step2.2)
  else (false, step1.2)

/-- `XORExtentWriter::WriteXorExtent(bytes, size, xor_ext, merge_op)`:
compute the source block and the read end offset; when the read overruns a
known (non-zero) partition size, fail if the overrun is at least a block,
otherwise (after logging) run the split; when there is no overrun, forward
the whole sub-extent at `src_block * BlockSize() + src_offset`. -/
def WriteXorExtent (env : Env) (bytes : List Nat) (sz : Nat) (x : Extent)
    (m : CowMergeOperation) : Bool × List SinkCall :=
  let readEnd := readEndOffset env m x
  if readEnd > env.partitionSize ∧ env.partitionSize ≠ 0 then
    if readEnd - env.partitionSize ≥ env.blockSize then (false, [])
    else writeXorExtentSplit env bytes x m
  else
    WriteXorCowOp env bytes sz x (srcBlockOf m x * env.blockSize + m.src_offset)

/-- The loop body of `XORExtentWriter::WriteExtent` over the XOR
sub-extents returned by `GetIntersectingExtents`: fetch the merge
operation (absence fails), check `has_src_extent()`, `has_dst_extent()`,
containment in the request extent and containment in the merge operation's
destination extent (each failure aborts with no further sink call), then
run `WriteXorExtent` on the byte slice at
`(x.start_block - extent.start_block) * BlockSize()`. -/
def processXorExtents (env : Env) (bytes : List Nat) (extent : Extent) :
    List Extent → Bool × List SinkCall
  | [] => (true, [])
  | x :: rest =>
    match env.xorMapGet x with
    | none => (false, [])
    | some m =>
      if m.src_extent.isSome then
        if m.dst_extent.isSome then
          if ExtentContains extent x then
            if ExtentContains m.dstExtentV x then
              let r := WriteXorExtent env
                (bytes.drop ((x.start_block - extent.start_block) * env.blockSize))
                (x.num_blocks * env.blockSize) x m
              if r.1 then
                let rr := processXorExtents env bytes extent rest
                (rr.1, r.2 ++ rr.2)
              else (false, r.2)
            else (false, [])
          else (false, [])
        else (false, [])
      else (false, [])

/-- `XORExtentWriter::WriteReplaceExtents(replace_extents, extent, bytes,
size)`: for each replace sub-extent, fail when its end exceeds the request
extent's end, otherwise forward the byte slice at
`(ext.start_block - extent.start_block) * BlockSize()` to the sink as
`AddRawBlocks(ext.start_block, slice, ext.num_blocks * BlockSize())`. -/
def WriteReplaceExtents (env : Env) :
    List Extent → Extent → List Nat → Nat → Bool × List SinkCall
  | [], _, _, _ => (true, [])
  | ext :: rest, extent, bytes, sz =>
    if ext.start_block + ext.num_blocks >
        extent.start_block + extent.num_blocks then (false, [])
    else
      let data := (bytes.drop ((ext.start_block - extent.start_block) * env.blockSize)).take
        (ext.num_blocks * env.blockSize)
      let call := SinkCall.addRawBlocks ext.start_block data
        (ext.num_blocks * env.blockSize)
      if env.sinkRawOk ext.start_block data (ext.num_blocks * env.blockSize) then
        let r := WriteReplaceExtents env rest extent bytes sz
        (r.1, call :: r.2)
      else (false, [call])

/-- `XORExtentWriter::WriteExtent(bytes, extent, size)`: process every XOR
sub-extent returned by `GetIntersectingExtents` in order (the first
failure aborts the whole request), then forward the remaining sub-extents
from `GetNonIntersectingExtents` via `WriteReplaceExtents`. -/
def WriteExtent (env : Env) (bytes : List Nat) (extent : Extent) (sz : Nat) :
    Bool × List SinkCall :=
  let r := processXorExtents env bytes extent (env.getIntersecting extent)
  if r.1 then
    let rr := WriteReplaceExtents env (env.getNonIntersecting extent) extent bytes sz
    (rr.1, r.2 ++ rr.2)
  else (false, r.2)

/-- The validation conditions of the `WriteExtent` loop for one XOR
sub-extent, as a single predicate: the merge operation is absent, or lacks
a source or destination extent, or the sub-extent is not fully contained
in the request extent or in the merge operation's destination extent. -/
def xorExtentInvalid (env : Env) (extent x : Extent) : Bool :=
  match env.xorMapGet x with
  | none => true
  | some m =>
    !m.src_extent.isSome || !m.dst_extent.isSome ||
      !(ExtentContains extent x) || !(ExtentContains m.dstExtentV x)

/-- A concrete environment for witnesses: block size 4, partition size 7,
a source reader that always returns zero bytes, a sink that accepts
everything, and an empty lookup. -/
def envA : Env :=
  { blockSize := 4, partitionSize := 7,
    pread := fun _ len => some (List.replicate len 0),
    sinkXorOk := fun _ _ _ _ _ => true, sinkRawOk := fun _ _ _ => true,
    getIntersecting := fun _ => [], getNonIntersecting := fun _ => [],
    xorMapGet := fun _ => none }

/-- A concrete environment whose lookup returns two XOR sub-extents for
the request extent, with a merge operation present only for the first. -/
def envL : Env :=
  { envA with
    partitionSize := 0
    getIntersecting := fun _ => [⟨0, 1⟩, ⟨1, 1⟩]
    xorMapGet := fun e =>
      if e = ⟨0, 1⟩ then some ⟨some ⟨0, 1⟩, some ⟨0, 1⟩, 0⟩ else none }

/-! ## Helper lemmas -/

/-- XOR-ing a byte-wise XOR delta against the same source bytes gives back
the new-content bytes (truncated to the source length). -/
theorem zipWith_xor_cancel (s n : List Nat) :
    List.zipWith Nat.xor (List.zipWith Nat.xor s n) s = n.take s.length := by
  induction s generalizing n with
  | nil => simp
  | cons a s ih =>
    cases n with
    | nil => simp
    | cons b n =>
      simp only [List.zipWith_cons_cons, List.length_cons, List.take_succ_cons, ih]
      congr 1
      show (a ^^^ b) ^^^ a = b
      rw [Nat.xor_comm a b, Nat.xor_cancel_right]

/-! ## Claim theorems -/

/-- Claim C4 (error_handling): when the implied source read overruns the
known (non-zero) partition size by at least one full block,
`WriteXorExtent` fails and makes no sink call for that sub-extent. -/
theorem c4_large_oob_rejected (env : Env) (bytes : List Nat) (sz : Nat)
    (x : Extent) (m : CowMergeOperation)
    (hoob : readEndOffset env m x > env.partitionSize)
    (hps : env.partitionSize ≠ 0)
    (hbs : readEndOffset env m x - env.partitionSize ≥ env.blockSize) :
    WriteXorExtent env bytes sz x m = (false, []) := by
  simp only [WriteXorExtent]
  rw [if_pos ⟨hoob, hps⟩, if_pos hbs]

/-- Witness for C4: a concrete overrun of more than one block is rejected
with an empty sink trace. -/
theorem c4_large_oob_rejected_witness :
    WriteXorExtent
      { blockSize := 4, partitionSize := 7,
        pread := fun _ len => some (List.replicate len 0),
        sinkXorOk := fun _ _ _ _ _ => true, sinkRawOk := fun _ _ _ => true,
        getIntersecting := fun _ => [], getNonIntersecting := fun _ => [],
        xorMapGet := fun _ => none }
      [1, 2, 3, 4] 4 ⟨10, 1⟩
      ⟨some ⟨2, 1⟩, some ⟨10, 1⟩, 0⟩ = (false, []) :=
  c4_large_oob_rejected _ _ _ _ _ (by decide) (by decide) (by decide)

/-- Claim C7 (functional_correctness): with no partition overrun,
`WriteXorExtent` forwards the whole sub-extent to `WriteXorCowOp` at source
byte offset `src_block * block_size + src_offset`, where `src_block` is
`merge_op.src_extent.start_block + (x.start_block -
merge_op.dst_extent.start_block)` (the no-underflow hypothesis `hco` holds
for every merge operation validated by `WriteExtent`, whose containment
check gives `dst_extent.start_block ≤ x.start_block`). -/
theorem c7_in_bounds_forwarding (env : Env) (bytes : List Nat) (sz : Nat)
    (x : Extent) (m : CowMergeOperation)
    (h : ¬(readEndOffset env m x > env.partitionSize ∧ env.partitionSize ≠ 0))
    (hco : m.dstExtentV.start_block ≤ x.start_block) :
    WriteXorExtent env bytes sz x m =
      WriteXorCowOp env bytes sz x (srcBlockOf m x * env.blockSize + m.src_offset) ∧
    srcBlockOf m x =
      m.srcExtentV.start_block + (x.start_block - m.dstExtentV.start_block) := by
  constructor
  · simp only [WriteXorExtent]
    rw [if_neg h]
  · unfold srcBlockOf
    omega

/-- Witness for C7 at a concrete in-bounds input. -/
theorem c7_in_bounds_forwarding_witness :
    WriteXorExtent envA [1, 2, 3, 4] 4 ⟨10, 1⟩ ⟨some ⟨0, 1⟩, some ⟨10, 1⟩, 0⟩ =
      WriteXorCowOp envA [1, 2, 3, 4] 4 ⟨10, 1⟩
        (srcBlockOf ⟨some ⟨0, 1⟩, some ⟨10, 1⟩, 0⟩ ⟨10, 1⟩ * envA.blockSize + 0) ∧
    srcBlockOf ⟨some ⟨0, 1⟩, some ⟨10, 1⟩, 0⟩ ⟨10, 1⟩ = 0 + (10 - 10) :=
  c7_in_bounds_forwarding envA _ _ _ _ (by decide) (by decide)

/-- Claim C9 (functional_correctness): with partition size 0, the
out-of-bound branch is never taken and every sub-extent is forwarded whole
to `WriteXorCowOp` at `src_block * block_size + src_offset`, however large
the implied read end offset is. -/
theorem c9_zero_partition_size_no_check (env : Env) (bytes : List Nat)
    (sz : Nat) (x : Extent) (m : CowMergeOperation)
    (hps : env.partitionSize = 0) :
    WriteXorExtent env bytes sz x m =
      WriteXorCowOp env bytes sz x (srcBlockOf m x * env.blockSize + m.src_offset) := by
  simp only [WriteXorExtent]
  rw [if_neg]
  intro hc
  exact hc.2 hps

/-- Witness for C9: a read ending far beyond any bound is still forwarded
whole when the partition size is 0. -/
theorem c9_zero_partition_size_no_check_witness :
    WriteXorExtent
      { envA with partitionSize := 0 } [1, 2, 3, 4] 4 ⟨10, 1⟩
      ⟨some ⟨1000, 1⟩, some ⟨10, 1⟩, 3⟩ =
    WriteXorCowOp { envA with partitionSize := 0 } [1, 2, 3, 4] 4 ⟨10, 1⟩
      (srcBlockOf ⟨some ⟨1000, 1⟩, some ⟨10, 1⟩, 3⟩ ⟨10, 1⟩ *
        ({ envA with partitionSize := 0 } : Env).blockSize + 3) :=
  c9_zero_partition_size_no_check _ _ _ _ _ rfl

/-- Claim C8 (error_handling): `WriteXorCowOp` fails with no sink call when
the source read errors or returns fewer bytes than the requested
`block_size * num_blocks`. -/
theorem c8_short_read_fails (env : Env) (bytes : List Nat) (sz : Nat)
    (x : Extent) (off : Nat)
    (h : env.pread off (env.blockSize * x.num_blocks) = none ∨
      ∃ data, env.pread off (env.blockSize * x.num_blocks) = some data ∧
        data.length ≠ env.blockSize * x.num_blocks) :
    WriteXorCowOp env bytes sz x off = (false, []) := by
  unfold WriteXorCowOp
  rcases h with h | ⟨data, hd, hl⟩
  · simp [h]
  · simp [hd, hl]

/-- Witness for C8: a reader that always fails with an errno error. -/
theorem c8_short_read_fails_witness :
    WriteXorCowOp { envA with pread := fun _ _ => none } [1, 2, 3, 4] 4
      ⟨10, 1⟩ 0 = (false, []) :=
  c8_short_read_fails _ _ _ _ _ (Or.inl rfl)

/-- Claim C2 (algebraic_relational): on a successful read of the
`block_size * num_blocks` source bytes, the data `WriteXorCowOp` forwards
to `AddXorBlocks` is the byte-wise XOR of those source bytes with the
new-content bytes (of equal length), so XOR-ing the recorded data against
the same source bytes reconstructs the new-content bytes. -/
theorem c2_xor_roundtrip (env : Env) (bytes src : List Nat) (sz : Nat)
    (x : Extent) (off : Nat)
    (hread : env.pread off (env.blockSize * x.num_blocks) = some src)
    (hslen : src.length = env.blockSize * x.num_blocks)
    (hblen : bytes.length = env.blockSize * x.num_blocks) :
    (WriteXorCowOp env bytes sz x off).2 =
      [SinkCall.addXorBlocks x.start_block (List.zipWith Nat.xor src bytes)
        (env.blockSize * x.num_blocks) (off / env.blockSize)
        (off % env.blockSize)] ∧
    List.zipWith Nat.xor (List.zipWith Nat.xor src bytes) src = bytes := by
  constructor
  · unfold WriteXorCowOp
    simp [hread, hslen]
  · rw [zipWith_xor_cancel, hslen, ← hblen, List.take_length]

/-- Witness for C2 at concrete source and new-content bytes. -/
theorem c2_xor_roundtrip_witness :
    (WriteXorCowOp { envA with pread := fun _ len => some (List.replicate len 6) }
        [1, 2, 3, 4] 4 ⟨10, 1⟩ 0).2 =
      [SinkCall.addXorBlocks 10
        (List.zipWith Nat.xor (List.replicate 4 6) [1, 2, 3, 4]) 4 0 0] ∧
    List.zipWith Nat.xor
      (List.zipWith Nat.xor (List.replicate 4 6) [1, 2, 3, 4])
      (List.replicate 4 6) = [1, 2, 3, 4] := by
  have h := c2_xor_roundtrip
    { envA with pread := fun _ len => some (List.replicate len 6) }
    [1, 2, 3, 4] (List.replicate 4 6) 4 ⟨10, 1⟩ 0 rfl (by decide) (by decide)
  exact h

/-- Claim C5 (error_handling): when `block_size > oob_bytes >
merge_op.src_offset`, `WriteXorExtent` does not fail on that condition
alone — the source only logs it and continues with the split of the
sub-extent. -/
theorem c5_oob_gt_src_offset_continues (env : Env) (bytes : List Nat)
    (sz : Nat) (x : Extent) (m : CowMergeOperation)
    (hoob : readEndOffset env m x > env.partitionSize)
    (hps : env.partitionSize ≠ 0)
    (hlt : readEndOffset env m x - env.partitionSize < env.blockSize)
    (_hgt : readEndOffset env m x - env.partitionSize > m.src_offset) :
    WriteXorExtent env bytes sz x m = writeXorExtentSplit env bytes x m := by
  simp only [WriteXorExtent]
  rw [if_pos ⟨hoob, hps⟩, if_neg (not_le.mpr hlt)]

/-- Witness for C5: overrun of 1 byte with `src_offset = 0` still runs the
split. -/
theorem c5_oob_gt_src_offset_continues_witness :
    WriteXorExtent envA [1, 2, 3, 4] 4 ⟨10, 1⟩ ⟨some ⟨1, 1⟩, some ⟨10, 1⟩, 0⟩ =
      writeXorExtentSplit envA [1, 2, 3, 4] ⟨10, 1⟩
        ⟨some ⟨1, 1⟩, some ⟨10, 1⟩, 0⟩ :=
  c5_oob_gt_src_offset_continues envA _ _ _ _ (by decide) (by decide)
    (by decide) (by decide)

/-- Every sink call `WriteXorCowOp` makes carries
`src_sub_block_offset = src_offset % block_size`. -/
theorem writeXorCowOp_subOffset (env : Env) (bytes : List Nat) (sz : Nat)
    (x : Extent) (off : Nat) :
    ∀ c ∈ (WriteXorCowOp env bytes sz x off).2,
      subBlockOffsetOf c = some (off % env.blockSize) := by
  intro c hc
  simp only [WriteXorCowOp] at hc
  cases hpread : env.pread off (env.blockSize * x.num_blocks) with
  | none => rw [hpread] at hc; simp at hc
  | some data =>
    rw [hpread] at hc
    by_cases hl : data.length = env.blockSize * x.num_blocks
    · simp only [hl, ne_eq, not_true_eq_false, if_false, List.mem_singleton] at hc
      rw [hc]
      rfl
    · simp [hl] at hc

/-- Claim C10 (functional_correctness): in the out-of-bound branch the
source offset passed to `WriteXorCowOp` for the clipped last block,
`(src_block + x.num_blocks - 1) * block_size`, is a multiple of the block
size, so the `AddXorBlocks` call made for the last block always carries
`src_sub_block_offset = 0` — the merge operation's sub-block shift
`src_offset` is dropped for the clipped last block even when non-zero. -/
theorem c10_last_block_sub_offset_zero (env : Env) (bytes : List Nat)
    (sz : Nat) (x : Extent) (m : CowMergeOperation)
    (hoob : readEndOffset env m x > env.partitionSize)
    (hps : env.partitionSize ≠ 0)
    (hlt : readEndOffset env m x - env.partitionSize < env.blockSize) :
    WriteXorExtent env bytes sz x m = writeXorExtentSplit env bytes x m ∧
    ((srcBlockOf m x + x.num_blocks - 1) * env.blockSize) % env.blockSize = 0 ∧
    ∀ c ∈ (WriteXorCowOp env (bytes.drop ((x.num_blocks - 1) * env.blockSize))
        env.blockSize ⟨x.start_block + x.num_blocks - 1, 1⟩
        ((srcBlockOf m x + x.num_blocks - 1) * env.blockSize)).2,
      subBlockOffsetOf c = some 0 := by
  refine ⟨?_, Nat.mul_mod_left _ _, ?_⟩
  · simp only [WriteXorExtent]
    rw [if_pos ⟨hoob, hps⟩, if_neg (not_le.mpr hlt)]
  · intro c hc
    have h := writeXorCowOp_subOffset env _ _ _ _ c hc
    rwa [Nat.mul_mod_left] at h

/-- Witness for C10: with `src_offset = 3` the last-block sink call still
carries sub-block offset 0. -/
theorem c10_last_block_sub_offset_zero_witness :
    WriteXorExtent { envA with partitionSize := 9 } [1, 2, 3, 4, 5, 6, 7, 8] 8
        ⟨5, 2⟩ ⟨some ⟨0, 2⟩, some ⟨5, 2⟩, 3⟩ =
      writeXorExtentSplit { envA with partitionSize := 9 } [1, 2, 3, 4, 5, 6, 7, 8]
        ⟨5, 2⟩ ⟨some ⟨0, 2⟩, some ⟨5, 2⟩, 3⟩ ∧
    ((srcBlockOf ⟨some ⟨0, 2⟩, some ⟨5, 2⟩, 3⟩ ⟨5, 2⟩ + 2 - 1) *
      ({ envA with partitionSize := 9 } : Env).blockSize) %
      ({ envA with partitionSize := 9 } : Env).blockSize = 0 ∧
    ∀ c ∈ (WriteXorCowOp { envA with partitionSize := 9 }
        (([1, 2, 3, 4, 5, 6, 7, 8] : List Nat).drop
          ((2 - 1) * ({ envA with partitionSize := 9 } : Env).blockSize))
        ({ envA with partitionSize := 9 } : Env).blockSize ⟨5 + 2 - 1, 1⟩
        ((srcBlockOf ⟨some ⟨0, 2⟩, some ⟨5, 2⟩, 3⟩ ⟨5, 2⟩ + 2 - 1) *
          ({ envA with partitionSize := 9 } : Env).blockSize)).2,
      subBlockOffsetOf c = some 0 :=
  c10_last_block_sub_offset_zero _ _ _ _ _ (by decide) (by decide) (by decide)

/-- Counterexample for claim C1: block size 4, partition size 7, a one-block
XOR sub-extent with `src_offset = 0` whose read `[4, 8)` overruns the
partition by 1 byte (`0 < oob_bytes < block_size`).  `WriteXorExtent`
succeeds and forwards the clipped last block read at source block 1, i.e.
source byte offset 4 — which exceeds `partition_size - block_size = 3`, and
whose 4-byte read ends at byte 8, past the partition size 7.  This refutes
"that last-block source read never extends past the partition size". -/
theorem c1_clip_split_counterexample :
    (0 < readEndOffset envA ⟨some ⟨1, 1⟩, some ⟨10, 1⟩, 0⟩ ⟨10, 1⟩ -
        envA.partitionSize ∧
      readEndOffset envA ⟨some ⟨1, 1⟩, some ⟨10, 1⟩, 0⟩ ⟨10, 1⟩ -
        envA.partitionSize < envA.blockSize) ∧
    WriteXorExtent envA [1, 2, 3, 4] 4 ⟨10, 1⟩ ⟨some ⟨1, 1⟩, some ⟨10, 1⟩, 0⟩ =
      (true, [SinkCall.addXorBlocks 10 [1, 2, 3, 4] 4 1 0]) ∧
    ¬((srcBlockOf ⟨some ⟨1, 1⟩, some ⟨10, 1⟩, 0⟩ ⟨10, 1⟩ + 1 - 1) *
        envA.blockSize ≤ envA.partitionSize - envA.blockSize) ∧
    ¬((srcBlockOf ⟨some ⟨1, 1⟩, some ⟨10, 1⟩, 0⟩ ⟨10, 1⟩ + 1 - 1) *
        envA.blockSize + envA.blockSize ≤ envA.partitionSize) := by
  decide

/-- Claim C1 as amended (functional_correctness): for an XOR sub-extent
whose source read overruns the non-zero partition size by
`0 < oob_bytes < block_size`, `WriteXorExtent` runs the split (prefix of
all blocks but the last, forwarded via `WriteXorCowOp` only when
non-empty at `src_block * block_size + src_offset`, then the last block
alone at `(src_block + num_blocks - 1) * block_size`), and — provided
`oob_bytes ≤ merge_op.src_offset` — that last-block source read ends
within the partition (`last offset + block_size ≤ partition_size`).  When
`oob_bytes > src_offset` the last-block read can extend past the
partition size (see the counterexample). -/
theorem c1_clip_split_amended (env : Env) (bytes : List Nat) (sz : Nat)
    (x : Extent) (m : CowMergeOperation)
    (hnb : 0 < x.num_blocks)
    (_hco : m.dstExtentV.start_block ≤ m.srcExtentV.start_block + x.start_block)
    (hoob : readEndOffset env m x > env.partitionSize)
    (hps : env.partitionSize ≠ 0)
    (hlt : readEndOffset env m x - env.partitionSize < env.blockSize)
    (hso : readEndOffset env m x - env.partitionSize ≤ m.src_offset) :
    WriteXorExtent env bytes sz x m = writeXorExtentSplit env bytes x m ∧
    (srcBlockOf m x + x.num_blocks - 1) * env.blockSize + env.blockSize ≤
      env.partitionSize := by
  constructor
  · simp only [WriteXorExtent]
    rw [if_pos ⟨hoob, hps⟩, if_neg (not_le.mpr hlt)]
  · have h1 : (srcBlockOf m x + x.num_blocks) * env.blockSize ≤
        env.partitionSize := by
      unfold readEndOffset at hoob hso
      set p := (srcBlockOf m x + x.num_blocks) * env.blockSize with hp
      omega
    have h2 : srcBlockOf m x + x.num_blocks - 1 + 1 =
        srcBlockOf m x + x.num_blocks := by omega
    calc (srcBlockOf m x + x.num_blocks - 1) * env.blockSize + env.blockSize
        = (srcBlockOf m x + x.num_blocks - 1 + 1) * env.blockSize := by
          rw [Nat.succ_mul]
      _ = (srcBlockOf m x + x.num_blocks) * env.blockSize := by rw [h2]
      _ ≤ env.partitionSize := h1

/-- Witness for the amended C1: overrun of 2 bytes with `src_offset = 3`;
the last-block read `[4, 8)` ends within the 9-byte partition. -/
theorem c1_clip_split_amended_witness :
    WriteXorExtent { envA with partitionSize := 9 } [1, 2, 3, 4, 5, 6, 7, 8] 8
        ⟨5, 2⟩ ⟨some ⟨0, 2⟩, some ⟨5, 2⟩, 3⟩ =
      writeXorExtentSplit { envA with partitionSize := 9 } [1, 2, 3, 4, 5, 6, 7, 8]
        ⟨5, 2⟩ ⟨some ⟨0, 2⟩, some ⟨5, 2⟩, 3⟩ ∧
    (srcBlockOf ⟨some ⟨0, 2⟩, some ⟨5, 2⟩, 3⟩ ⟨5, 2⟩ + 2 - 1) *
        ({ envA with partitionSize := 9 } : Env).blockSize +
        ({ envA with partitionSize := 9 } : Env).blockSize ≤
      ({ envA with partitionSize := 9 } : Env).partitionSize :=
  c1_clip_split_amended _ _ _ _ _ (by decide) (by decide) (by decide)
    (by decide) (by decide) (by decide)

/-- Processing a concatenation of XOR sub-extent lists whose first part
succeeds: the result is that of the second part, with the traces
concatenated. -/
theorem processXorExtents_append (env : Env) (bytes : List Nat)
    (extent : Extent) (l1 l2 : List Extent)
    (h : (processXorExtents env bytes extent l1).1 = true) :
    processXorExtents env bytes extent (l1 ++ l2) =
      ((processXorExtents env bytes extent l2).1,
        (processXorExtents env bytes extent l1).2 ++
          (processXorExtents env bytes extent l2).2) := by
  induction l1 with
  | nil => simp [processXorExtents]
  | cons x rest ih =>
    rw [List.cons_append]
    cases hm : env.xorMapGet x with
    | none =>
      simp only [processXorExtents, hm] at h
      simp at h
    | some m =>
      simp only [processXorExtents, hm] at h ⊢
      by_cases h1 : m.src_extent.isSome = true
      case neg => rw [if_neg h1] at h; simp at h
      rw [if_pos h1] at h ⊢
      by_cases h2 : m.dst_extent.isSome = true
      case neg => rw [if_neg h2] at h; simp at h
      rw [if_pos h2] at h ⊢
      by_cases h3 : ExtentContains extent x = true
      case neg => rw [if_neg h3] at h; simp at h
      rw [if_pos h3] at h ⊢
      by_cases h4 : ExtentContains m.dstExtentV x = true
      case neg => rw [if_neg h4] at h; simp at h
      rw [if_pos h4] at h ⊢
      by_cases h5 : (WriteXorExtent env
          (bytes.drop ((x.start_block - extent.start_block) * env.blockSize))
          (x.num_blocks * env.blockSize) x m).1 = true
      case neg => rw [if_neg h5] at h; simp at h
      rw [if_pos h5] at h ⊢
      simp only at h
      rw [ih h]
      simp [h1, h2, h3, h4, h5, List.append_assoc]

/-- A validation failure at the head of the XOR sub-extent list makes the
whole processing fail with no sink call at all. -/
theorem processXorExtents_invalid_head (env : Env) (bytes : List Nat)
    (extent : Extent) (x : Extent) (rest : List Extent)
    (h : xorExtentInvalid env extent x = true) :
    processXorExtents env bytes extent (x :: rest) = (false, []) := by
  unfold xorExtentInvalid at h
  cases hm : env.xorMapGet x with
  | none => simp only [processXorExtents, hm]
  | some m =>
    rw [hm] at h
    simp only [Bool.or_eq_true, Bool.not_eq_true'] at h
    simp only [processXorExtents, hm]
    split_ifs <;> simp_all

/-- Claim C3 (error_handling): if the intersecting query returns a
sub-extent `x` whose merge operation is absent, or lacks a source or
destination extent, or which is not fully contained in the request extent
or in the merge operation's destination extent, then — with every
sub-extent before `x` having succeeded — `WriteExtent` fails the whole
request, and its sink-call trace is exactly that of the sub-extents before
the failure point: no sink call is made for `x`, for any later XOR
sub-extent, or for any replace extent. -/
theorem c3_write_extent_validation (env : Env) (bytes : List Nat)
    (extent : Extent) (sz : Nat) (pre : List Extent) (x : Extent)
    (post : List Extent)
    (hl : env.getIntersecting extent = pre ++ x :: post)
    (hpre : (processXorExtents env bytes extent pre).1 = true)
    (hx : xorExtentInvalid env extent x = true) :
    WriteExtent env bytes extent sz =
      (false, (processXorExtents env bytes extent pre).2) := by
  unfold WriteExtent
  rw [hl, processXorExtents_append env bytes extent pre (x :: post) hpre,
      processXorExtents_invalid_head env bytes extent x post hx]
  simp

/-- Witness for C3: a two-element intersecting list whose first element is
valid and processed, and whose second has no merge operation; the request
fails with only the first element's sink call in the trace. -/
theorem c3_write_extent_validation_witness :
    WriteExtent envL [1, 2, 3, 4, 5, 6, 7, 8] ⟨0, 2⟩ 8 =
      (false,
        (processXorExtents envL [1, 2, 3, 4, 5, 6, 7, 8] ⟨0, 2⟩ [⟨0, 1⟩]).2) :=
  c3_write_extent_validation _ _ _ 8 [⟨0, 1⟩] ⟨1, 1⟩ [] rfl (by decide)
    (by decide)

/-- Counterexample for claim C6: the sub-extent `[0, 1)` does not lie fully
within the request extent `[5, 15)`, yet `WriteReplaceExtents` does not
fail — the source only checks that the sub-extent's end does not exceed
the request extent's end, so the sink call is still made and the request
succeeds.  This refutes "fails whenever the sub-extent does not lie fully
within the request extent". -/
theorem c6_replace_counterexample :
    ExtentContains ⟨5, 10⟩ ⟨0, 1⟩ = false ∧
    WriteReplaceExtents envA [⟨0, 1⟩] ⟨5, 10⟩ (List.replicate 40 7) 40 =
      (true, [SinkCall.addRawBlocks 0 (List.replicate 4 7) 4]) := by
  decide

/-- Claim C6 as amended (error_handling): for the head replace sub-extent,
`WriteReplaceExtents` fails — returning false with no sink call — exactly
when the sub-extent's end exceeds the request extent's end (the lower
bound is not checked); otherwise it forwards the bytes sliced at block
offset `(ext.start_block - extent.start_block) * block_size`, unchanged,
as a raw block write of `ext.num_blocks * block_size` bytes keyed by
`ext.start_block`. -/
theorem c6_replace_amended (env : Env) (ext : Extent) (rest : List Extent)
    (extent : Extent) (bytes : List Nat) (sz : Nat) :
    (ext.start_block + ext.num_blocks >
        extent.start_block + extent.num_blocks →
      WriteReplaceExtents env (ext :: rest) extent bytes sz = (false, [])) ∧
    (ext.start_block + ext.num_blocks ≤
        extent.start_block + extent.num_blocks →
      (WriteReplaceExtents env (ext :: rest) extent bytes sz).2.head? =
        some (SinkCall.addRawBlocks ext.start_block
          ((bytes.drop ((ext.start_block - extent.start_block) *
              env.blockSize)).take (ext.num_blocks * env.blockSize))
          (ext.num_blocks * env.blockSize))) := by
  constructor
  · intro h
    unfold WriteReplaceExtents
    rw [if_pos h]
  · intro h
    unfold WriteReplaceExtents
    rw [if_neg (not_lt.mpr h)]
    by_cases hs : env.sinkRawOk ext.start_block
        ((bytes.drop ((ext.start_block - extent.start_block) *
            env.blockSize)).take (ext.num_blocks * env.blockSize))
        (ext.num_blocks * env.blockSize) = true
    · rw [if_pos hs]
      simp
    · rw [if_neg hs]
      simp

/-- Witness for the amended C6: an overrunning sub-extent is rejected with
no sink call, and an in-bounds one is forwarded as a raw write of its
slice. -/
theorem c6_replace_amended_witness :
    WriteReplaceExtents envA [⟨14, 3⟩] ⟨5, 10⟩ (List.replicate 40 7) 40 =
      (false, []) ∧
    (WriteReplaceExtents envA [⟨6, 2⟩] ⟨5, 10⟩ (List.replicate 40 7) 40).2.head? =
      some (SinkCall.addRawBlocks 6
        (((List.replicate 40 7 : List Nat).drop ((6 - 5) * envA.blockSize)).take
          (2 * envA.blockSize)) (2 * envA.blockSize)) :=
  ⟨(c6_replace_amended envA ⟨14, 3⟩ [] ⟨5, 10⟩ (List.replicate 40 7) 40).1
      (by decide),
    (c6_replace_amended envA ⟨6, 2⟩ [] ⟨5, 10⟩ (List.replicate 40 7) 40).2
      (by decide)⟩
